import Mathlib

/- Verification of the motion-capture core of the GIT-Group-9 notebook
   (assignment_1/3D/motion_capture_visualization.ipynb): the Joint class and
   its set_motion forward-kinematics pass, the AMC motion parser parse_amc,
   and the two frame-iteration drivers (create_3d_animation and the
   dashboard's create_animation).  Each Python construct is embedded as a
   computable Lean definition and the spec's claims are settled against it. -/

namespace Mocap

/- Scalar type of the embedding.  The notebook computes with Python floats;
   we model the arithmetic exactly over the rationals, keeping the
   transcendental operations (np.sin and np.cos, used inside
   transforms3d.euler2mat, and the factor pi/180 of np.deg2rad) abstract as
   parameters, since none of the claims depends on their values. -/
abbrev K : Type := ℚ

abbrev V3 : Type := Fin 3 → K

abbrev M3 : Type := Matrix (Fin 3) (Fin 3) K

/-- Abstract interpretation of the real-valued primitives used by the code:
an arbitrary sine, cosine, and degree-to-radian factor. -/
structure RealOps where
  sin : K → K
  cos : K → K
  rad : K

/-- np.deg2rad: multiplication by the constant pi/180 (kept abstract). -/
def deg2rad (R : RealOps) (x : K) : K := x * R.rad

/-- transforms3d.euler.euler2mat with the default static x-y-z convention,
exactly the matrix built by its source for axes sxyz. -/
def euler2mat (R : RealOps) (ai aj ak : K) : M3 :=
  let si := R.sin ai; let sj := R.sin aj; let sk := R.sin ak
  let ci := R.cos ai; let cj := R.cos aj; let ck := R.cos ak
  let cc := ci * ck; let cs := ci * sk
  let sc := si * ck; let ss := si * sk
  Matrix.of ![![cj * ck, sj * sc - cs, sj * cc + ss],
              ![cj * sk, sj * ss + cc, sj * cs - sc],
              ![-sj, cj * si, cj * ci]]

/-- Writing one slot of a 3-slot array, as the Python statements
limits[0] = lm / limits[1] = lm / limits[2] = lm do. -/
def setSlot {α : Type} (f : Fin 3 → α) (i : Fin 3) (v : α) : Fin 3 → α :=
  fun j => if j = i then v else f j

/-- The slot chosen by Joint.__init__ for a dof tag: rx into 0, ry into 1,
and anything else into 2 (the source tests only rx and ry and defaults). -/
def axisSlot (nm : String) : Fin 3 :=
  if nm = "rx" then 0 else if nm = "ry" then 1 else 2

/-- The loop of Joint.__init__ over zip(limits, dof), filling the 3 x 2
limits array (zip truncates to the shorter list, as in Python). -/
def mkLimits : List (K × K) → List String → (Fin 3 → K × K) → (Fin 3 → K × K)
  | lm :: ls, nm :: ns, acc => mkLimits ls ns (setSlot acc (axisSlot nm) lm)
  | _, _, acc => acc

/-- The limits array a Joint is constructed with, starting from np.zeros. -/
def limitsOfDof (lims : List (K × K)) (dof : List String) : Fin 3 → K × K :=
  mkLimits lims dof (fun _ => (0, 0))

/-- Static data of one Joint object: the fields set by Joint.__init__ and
never changed afterwards.  C and Cinv are the matrices the constructor
derives from the axis angles (Cinv = np.linalg.inv(C)); they are carried as
data, exactly as the Python object carries them. -/
structure JointData where
  name : String
  direction : V3
  length : K
  C : M3
  Cinv : M3
  limits : Fin 3 → K × K

/-- One Joint node of the skeleton tree: its static data, the transient
per-frame fields coordinate and matrix (None before any set_motion), and
its children list.  The Python parent back-reference is represented by the
tree structure itself. -/
inductive JTree where
  | node (dta : JointData) (coordinate : Option V3) (matrix : Option M3)
      (children : List JTree)

def JTree.dta : JTree → JointData
  | .node d _ _ _ => d

def JTree.coordinate : JTree → Option V3
  | .node _ co _ _ => co

def JTree.matrix : JTree → Option M3
  | .node _ _ mx _ => mx

def JTree.children : JTree → List JTree
  | .node _ _ _ ch => ch

/-- One motion frame: the Python dict from joint name to channel values
(insertion ordered, later assignment to a present key replaces in place). -/
abbrev Frame : Type := List (String × List K)

/-- Python dict read motion[name]: None when the key is absent (KeyError). -/
def frameLookup (mo : Frame) (nm : String) : Option (List K) :=
  mo.lookup nm

/-- Python dict write d[name] = vs: replace in place if present, else
append, preserving insertion order. -/
def dictInsert (f : Frame) (nm : String) (vs : List K) : Frame :=
  match f with
  | [] => [(nm, vs)]
  | (k, v) :: rest =>
      if k = nm then (k, vs) :: rest else (k, v) :: dictInsert rest nm vs

/-- The channel-consuming loop of set_motion for a non-root joint: for each
axis in the fixed order x, y, z, an axis with nonzero limits reads the next
unused value motion[name][idx] (a dict or index miss is an error), an axis
with zero limits contributes rotation 0 and reads nothing. -/
def loopAxes (mo : Frame) (nm : String) : List (K × K) → Nat → Option (List K)
  | [], _ => some []
  | lm :: rest, idx =>
      if lm = ((0 : K), (0 : K)) then
        (loopAxes mo nm rest idx).map (fun r => 0 :: r)
      else do
        let vals ← frameLookup mo nm
        let v ← vals[idx]?
        let r ← loopAxes mo nm rest (idx + 1)
        pure (v :: r)

/-- The full local rotation list (length 3) a non-root joint extracts from
the frame, iterating over its limits array in axis order. -/
def localRotation (mo : Frame) (nm : String) (L : Fin 3 → K × K) :
    Option (List K) :=
  loopAxes mo nm [L 0, L 1, L 2] 0

/-- The per-node state computed by one set_motion visit, given the parent's
already-final matrix pm and coordinate pc: the root branch takes the first
three root channels as the coordinate directly and builds
C * euler2mat(rotation) * Cinv from the next three; the non-root branch
builds parent.matrix * C * euler2mat(local rotation) * Cinv and the
coordinate parent.coordinate + length * (matrix @ direction).  Any failed
channel access yields none. -/
def nodeState (R : RealOps) (mo : Frame) (pm : M3) (pc : V3)
    (d : JointData) : Option (M3 × V3) :=
  if d.name = "root" then
    match frameLookup mo "root" with
    | some [x, y, z, a, b, g] =>
        let m := d.C * euler2mat R (deg2rad R a) (deg2rad R b) (deg2rad R g)
          * d.Cinv
        some (m, ![x, y, z])
    | _ => none
  else
    match localRotation mo d.name d.limits with
    | some [ax, ay, az] =>
        let m := pm * d.C
          * euler2mat R (deg2rad R ax) (deg2rad R ay) (deg2rad R az) * d.Cinv
        some (m, pc + d.length • m.mulVec d.direction)
    | _ => none

mutual

/-- Joint.set_motion: compute this node's state, then recurse into the
children with this node's matrix and coordinate as the parent state. -/
def setMotion (R : RealOps) (mo : Frame) (pm : M3) (pc : V3) :
    JTree → Option JTree
  | .node d _ _ ch => do
      let st ← nodeState R mo pm pc d
      let ch2 ← setMotionList R mo st.1 st.2 ch
      pure (.node d (some st.2) (some st.1) ch2)

/-- The for-loop over self.children inside set_motion. -/
def setMotionList (R : RealOps) (mo : Frame) (pm : M3) (pc : V3) :
    List JTree → Option (List JTree)
  | [] => some []
  | t :: ts => do
      let t2 ← setMotion R mo pm pc t
      let ts2 ← setMotionList R mo pm pc ts
      pure (t2 :: ts2)

end

/-- The notebook's call joints[root].set_motion(motion): the initial parent
state is irrelevant for a root-named node, which never reads it. -/
def applyFrame (R : RealOps) (mo : Frame) (t : JTree) : Option JTree :=
  setMotion R mo 1 0 t

mutual

/-- All joints of a subtree, i.e. the joints reachable from its root. -/
def jointsOf : JTree → List JTree
  | .node d co mx ch => .node d co mx ch :: jointsOfList ch

def jointsOfList : List JTree → List JTree
  | [] => []
  | t :: ts => jointsOf t ++ jointsOfList ts

end

/-- The joint names occurring in a tree. -/
def jointNames (t : JTree) : List String :=
  (jointsOf t).map fun j => j.dta.name

/- ------------------------------------------------------------------
   The AMC motion parser (parse_amc).  A motion file line, after Python's
   strip().split(), is a list of tokens; the parser's behaviour depends on a
   token only through str.isnumeric() of the first token of a line, through
   the token text used as a joint name, and through float() conversion of
   the value tokens, so a token is embedded as exactly those three fields.
   ------------------------------------------------------------------ -/

/-- One whitespace-separated token of a motion file line. -/
structure PTok where
  isnum : Bool
  text : String
  val : Option K

abbrev Line : Type := List PTok

/-- list(map(float, line[1:])): every value token must convert, a
conversion failure (val = none) aborts the parse. -/
def floatsOf (ts : List PTok) : Option (List K) :=
  ts.mapM PTok.val

/-- The while-loop of parse_amc over the lines after the :DEGREES marker,
carrying the current open frame and the frames list: a blank line is
skipped; a line whose first token is numeric closes the current frame,
appending it only when it is non-empty; any other line records a channel
entry into the current frame.  End of input closes the final open frame. -/
def parseLines : List Line → Frame → List Frame → Option (List Frame)
  | [], cur, acc => some (if cur = [] then acc else acc ++ [cur])
  | l :: rest, cur, acc =>
      match l with
      | [] => parseLines rest cur acc
      | t :: ts =>
          if t.isnum then
            if cur = [] then parseLines rest cur acc
            else parseLines rest [] (acc ++ [cur])
          else
            match floatsOf ts with
            | none => none
            | some vs => parseLines rest (dictInsert cur t.text vs) acc

/-- parse_amc, applied to the tokenized lines following the :DEGREES
marker. -/
def parse_amc (content : List Line) : Option (List Frame) :=
  parseLines content [] []

/-- A line the parser can always consume: blank, delimiter, or a channel
line whose value tokens all convert to floats. -/
def wfLine : Line → Bool
  | [] => true
  | t :: ts => t.isnum || ts.all fun v => (PTok.val v).isSome

/- ------------------------------------------------------------------
   The two frame-iteration drivers.  Only the sequence of frame indices
   each driver hands to the FK engine is in scope (the claims are about
   which frames are applied, in which order); rendering is external.
   ------------------------------------------------------------------ -/

/-- Python range(a, b) as a list. -/
def pyRange (a b : Nat) : List Nat :=
  (List.range (b - a)).map (a + ·)

/-- The shared prologue of both drivers: end_frame = len(motions) when it
is None or exceeds len(motions). -/
def clampEnd (numMotions : Nat) (endOpt : Option Nat) : Nat :=
  match endOpt with
  | none => numMotions
  | some e => if numMotions < e then numMotions else e

/-- The frame indices create_3d_animation applies FK to: it builds
frames_to_show = range(start_frame, end_frame) but then passes
frames=len(frames_to_show) to FuncAnimation, whose update(i) calls
update_3d_scene(joints, motions, i, ...), so the indices actually applied
are 0, 1, ..., len(frames_to_show)-1. -/
def create3dAnimationSeq (numMotions startFrame : Nat) (endOpt : Option Nat) :
    List Nat :=
  let e := clampEnd numMotions endOpt
  let framesToShow := pyRange startFrame e
  List.range framesToShow.length

/-- The frame indices the dashboard's create_animation applies FK to:
frames = list(range(start_frame, end_frame)) and update(i) calls
update_3d_scene(joints, motions, frames[i], ...) for i in range(len(frames)). -/
def dashboardAnimationSeq (numMotions startFrame : Nat) (endOpt : Option Nat) :
    List Nat :=
  let e := clampEnd numMotions endOpt
  let frames := pyRange startFrame e
  (List.range frames.length).map (fun i => frames.getD i 0)

/- ------------------------------------------------------------------
   Spec-side definition for the refinement comparison of claim C2.
   ------------------------------------------------------------------ -/

/-- Modelled from the spec: channel values are consumed in DOF-declaration
order and each value is placed into the local-rotation slot matching its
declared axis tag (rx into x, ry into y, rz into z).  This is the
spec-described mapping, to be compared with the code's localRotation. -/
def specTagFill : List String → List K → (Fin 3 → K) → (Fin 3 → K)
  | nm :: ns, v :: vs, acc => specTagFill ns vs (setSlot acc (axisSlot nm) v)
  | _, _, acc => acc

/-- The spec-described local rotation vector (see specTagFill). -/
def claimedRotation (dof : List String) (vals : List K) : Fin 3 → K :=
  specTagFill dof vals (fun _ => 0)

/- ------------------------------------------------------------------
   Invariant predicates used by the claims.
   ------------------------------------------------------------------ -/

/-- The child-position invariant: in a world-state tree, every non-root
child's coordinate equals parent coordinate + length * (own world rotation
applied to direction), recursively through the whole tree. -/
inductive PosInv : JTree → Prop
  | node (d : JointData) (co : Option V3) (mx : Option M3) (ch : List JTree)
      (hrel : ∀ t ∈ ch, t.dta.name ≠ "root" →
        ∃ p m, co = some p ∧ t.matrix = some m ∧
          t.coordinate = some (p + t.dta.length • m.mulVec t.dta.direction))
      (hch : ∀ t ∈ ch, PosInv t) :
      PosInv (.node d co mx ch)

/-- Two trees with identical static descriptors and tree shape; the
transient coordinate/matrix fields (the only state a previous set_motion
call changes) are unconstrained. -/
inductive StaticEq : JTree → JTree → Prop
  | node (d : JointData) (co1 : Option V3) (mx1 : Option M3)
      (co2 : Option V3) (mx2 : Option M3) (ch1 ch2 : List JTree)
      (hlen : ch1.length = ch2.length)
      (hch : ∀ p ∈ ch1.zip ch2, StaticEq p.1 p.2) :
      StaticEq (.node d co1 mx1 ch1) (.node d co2 mx2 ch2)

/- ------------------------------------------------------------------
   Concrete data for witnesses and counterexamples.
   ------------------------------------------------------------------ -/

/-- A concrete interpretation of the real-valued primitives, used only to
evaluate witnesses. -/
def R0 : RealOps := { sin := fun _ => 0, cos := fun _ => 1, rad := 1 }

def dRoot : JointData :=
  { name := "root", direction := ![0, 0, 0], length := 0, C := 1, Cinv := 1,
    limits := fun _ => (0, 0) }

def dJ1 : JointData :=
  { name := "j1", direction := ![0, 1, 0], length := 10, C := 1, Cinv := 1,
    limits := limitsOfDof [(-180, 180)] ["rz"] }

def dJ2 : JointData :=
  { name := "j2", direction := ![1, 0, 0], length := 2, C := 1, Cinv := 1,
    limits := fun _ => (0, 0) }

def j1Node : JTree := .node dJ1 none none []

def tEx : JTree := .node dRoot none none [j1Node]

def tRootOnly : JTree := .node dRoot none none []

/-- tEx with stale world state left over from some earlier frame: same
static descriptors and tree shape, different transient fields. -/
def tExDirty : JTree :=
  .node dRoot (some ![5, 5, 5]) (some 1)
    [.node dJ1 (some ![1, 2, 3]) (some 1) []]

def moEx : Frame := [("root", [0, 0, 0, 0, 0, 0]), ("j1", [90])]

def moBad : Frame := [("root", [0, 0, 0, 0, 0, 0])]

def moGhost : Frame := [("root", [0, 0, 0, 0, 0, 0]), ("ghost", [1])]

/-- moEx with an extra entry whose name matches no joint of tEx. -/
def moExGhost : Frame :=
  [("root", [0, 0, 0, 0, 0, 0]), ("j1", [90]), ("ghost", [1])]

/-- A value token of a channel line (float conversion succeeds). -/
def valTok (n : K) : PTok := { isnum := false, text := "", val := some n }

/-- A frame-delimiter line: a single numeric token. -/
def delimLine (n : K) : Line := [{ isnum := true, text := "", val := some n }]

/-- A channel line: a joint name followed by its values. -/
def chanLine (nm : String) (vs : List K) : Line :=
  { isnum := false, text := nm, val := none } :: vs.map valTok

/-- Motion text with a zero-channel frame: frame delimiter 1 is immediately
followed by delimiter 2, then frame 2's channels. -/
def ex8 : List Line :=
  [delimLine 1, delimLine 2, chanLine "root" [0, 0, 0, 0, 0, 0]]

/-- Motion text whose single frame has a channel line for a joint name
(ghost) absent from the paired skeleton tRootOnly. -/
def exGhost : List Line :=
  [delimLine 1, chanLine "root" [0, 0, 0, 0, 0, 0], chanLine "ghost" [1]]

/-- A DOF list declared out of x, y, z order, with nonzero limits. -/
def exDof : List String := ["rz", "rx"]

def exLims : List (K × K) := [(-1, 1), (-2, 2)]

def exMoChan : Frame := [("j", [10, 20])]

/- ==================================================================
   Theorems.
   ================================================================== -/

/-- euler2mat at all-zero angles is the identity matrix, for any
interpretation with sin 0 = 0 and cos 0 = 1. -/
theorem euler2mat_zero (R : RealOps) (hs : R.sin 0 = 0) (hc : R.cos 0 = 1) :
    euler2mat R 0 0 0 = 1 := by
  ext i j
  fin_cases i <;> fin_cases j <;>
    simp [euler2mat, hs, hc, Matrix.one_apply, Matrix.vecHead, Matrix.vecTail]

/-- Successful set_motion on a node decomposes into a successful node-state
computation and a successful recursion into the children, with the result
tree carrying exactly the computed state. -/
theorem setMotion_eq_some (R : RealOps) (mo : Frame) (pm : M3) (pc : V3)
    (d : JointData) (co : Option V3) (mx : Option M3) (ch : List JTree)
    (t' : JTree)
    (h : setMotion R mo pm pc (.node d co mx ch) = some t') :
    ∃ st ch2, nodeState R mo pm pc d = some st ∧
      setMotionList R mo st.1 st.2 ch = some ch2 ∧
      t' = .node d (some st.2) (some st.1) ch2 := by
  rw [setMotion] at h
  cases hns : nodeState R mo pm pc d with
  | none => rw [hns] at h; simp at h
  | some st =>
      rw [hns] at h
      simp only [Option.bind_eq_bind, Option.some_bind] at h
      cases hl : setMotionList R mo st.1 st.2 ch with
      | none => rw [hl] at h; simp at h
      | some ch2 =>
          rw [hl] at h
          simp only [Option.bind_eq_bind, Option.some_bind, Option.pure_def,
            Option.some_inj] at h
          exact ⟨st, ch2, rfl, hl, h.symm⟩

/-- C3: for every motion frame, after applying the frame via set_motion on
the root, the root joint's world position equals exactly the frame's first
three root channel values, as a direct offset: no scaling is applied and
the root rotation is not applied to the translation. -/
theorem c3_root_translation (R : RealOps) (mo : Frame) (pm : M3) (pc : V3)
    (d : JointData) (co : Option V3) (mx : Option M3) (ch : List JTree)
    (t' : JTree) (x y z a b g : K)
    (hname : d.name = "root")
    (hlk : frameLookup mo "root" = some [x, y, z, a, b, g])
    (h : setMotion R mo pm pc (.node d co mx ch) = some t') :
    t'.coordinate = some ![x, y, z] := by
  obtain ⟨st, ch2, hns, hl, ht⟩ :=
    setMotion_eq_some R mo pm pc d co mx ch t' h
  have hns2 : nodeState R mo pm pc d =
      some (d.C * euler2mat R (deg2rad R a) (deg2rad R b) (deg2rad R g)
        * d.Cinv, ![x, y, z]) := by
    simp [nodeState, hname, hlk]
  rw [hns2] at hns
  obtain rfl : (d.C * euler2mat R (deg2rad R a) (deg2rad R b) (deg2rad R g)
      * d.Cinv, ![x, y, z]) = st := Option.some_inj.mp hns
  rw [ht]
  rfl

/-- C4: a non-root joint with no declared DOF (all-zero limits on every
axis) gets, for every motion frame, the world rotation
parent.worldRotation * C * Cinv (identity local rotation), independent of
any values present in the frame under its name, and a position determined
purely by its static direction, length and axis matrices. -/
theorem c4_nodof_rotation (R : RealOps) (mo : Frame) (pm : M3) (pc : V3)
    (d : JointData)
    (hname : d.name ≠ "root") (hlim : ∀ i, d.limits i = (0, 0))
    (hs : R.sin 0 = 0) (hc : R.cos 0 = 1) :
    nodeState R mo pm pc d =
      some (pm * d.C * d.Cinv,
        pc + d.length • (pm * d.C * d.Cinv).mulVec d.direction) := by
  have hrot : localRotation mo d.name d.limits = some [0, 0, 0] := by
    simp [localRotation, loopAxes, hlim 0, hlim 1, hlim 2]
  have hz : deg2rad R 0 = 0 := zero_mul _
  simp [nodeState, hname, hrot, hz, euler2mat_zero R hs hc, mul_one]

/-- Witness for C4 at a concrete no-DOF joint and frame. -/
theorem c4_nodof_rotation_witness :
    nodeState R0 moEx 1 0 dJ2 =
      some (1 * dJ2.C * dJ2.Cinv,
        (0 : V3) + dJ2.length • ((1 * dJ2.C * dJ2.Cinv).mulVec dJ2.direction)) :=
  c4_nodof_rotation R0 moEx 1 0 dJ2 (by decide) (fun _ => rfl) rfl rfl

/-- Witness for C3 at a concrete skeleton and frame. -/
theorem c3_root_translation_witness :
    ((applyFrame R0 moEx tEx).getD tEx).coordinate = some ![0, 0, 0] :=
  c3_root_translation R0 moEx 1 0 dRoot none none [j1Node]
    ((applyFrame R0 moEx tEx).getD tEx) 0 0 0 0 0 0 rfl rfl (by rfl)

/-- A child node is smaller than its parent node. -/
theorem sizeOf_mem_children (d : JointData) (co : Option V3) (mx : Option M3)
    (ch : List JTree) (t : JTree) (h : t ∈ ch) :
    sizeOf t < sizeOf (JTree.node d co mx ch) := by
  have h1 : sizeOf t < sizeOf ch := List.sizeOf_lt_of_mem h
  simp only [JTree.node.sizeOf_spec]
  omega

/-- A successful children pass relates input and output lists pointwise. -/
theorem setMotionList_zip (R : RealOps) (mo : Frame) (pm : M3) (pc : V3) :
    ∀ (ts ts' : List JTree), setMotionList R mo pm pc ts = some ts' →
      ts.length = ts'.length ∧
        ∀ p ∈ ts.zip ts', setMotion R mo pm pc p.1 = some p.2 := by
  intro ts
  induction ts with
  | nil =>
      intro ts' h
      rw [setMotionList] at h
      obtain rfl : ([] : List JTree) = ts' := Option.some_inj.mp h
      simp
  | cons t ts ih =>
      intro ts' h
      rw [setMotionList] at h
      cases hsm : setMotion R mo pm pc t with
      | none => rw [hsm] at h; simp at h
      | some t2 =>
          rw [hsm] at h
          simp only [Option.bind_eq_bind, Option.some_bind] at h
          cases hl : setMotionList R mo pm pc ts with
          | none => rw [hl] at h; simp at h
          | some ts2 =>
              rw [hl] at h
              simp only [Option.bind_eq_bind, Option.some_bind,
                Option.pure_def, Option.some_inj] at h
              obtain rfl : t2 :: ts2 = ts' := h
              obtain ⟨hlen, hzip⟩ := ih ts2 hl
              refine ⟨by simp [hlen], ?_⟩
              intro p hp
              rw [List.zip_cons_cons] at hp
              rcases List.mem_cons.mp hp with hp1 | hp2
              · subst hp1; exact hsm
              · exact hzip p hp2

/-- Every output node of a successful children pass comes from some input
node by a successful set_motion with the same parent state. -/
theorem setMotionList_mem (R : RealOps) (mo : Frame) (pm : M3) (pc : V3)
    (ts ts' : List JTree) (h : setMotionList R mo pm pc ts = some ts') :
    ∀ t' ∈ ts', ∃ t ∈ ts, setMotion R mo pm pc t = some t' := by
  intro t' ht'
  obtain ⟨hlen, hzip⟩ := setMotionList_zip R mo pm pc ts ts' h
  obtain ⟨i, hi, hget⟩ := List.mem_iff_getElem.mp ht'
  have hi2 : i < ts.length := by omega
  have hzlen : i < (ts.zip ts').length := by rw [List.length_zip]; omega
  have hpz : (ts[i], ts'[i]) ∈ ts.zip ts' := by
    have h2 := List.getElem_mem hzlen
    rwa [List.getElem_zip] at h2
  have h3 := hzip _ hpz
  exact ⟨ts[i], List.getElem_mem hi2, by rw [hget] at h3; exact h3⟩

/-- The coordinate computed for a non-root joint is
parent coordinate + length * (world rotation applied to direction). -/
theorem nodeState_nonroot_co (R : RealOps) (mo : Frame) (pm : M3) (pc : V3)
    (d : JointData) (st : M3 × V3)
    (hname : d.name ≠ "root")
    (h : nodeState R mo pm pc d = some st) :
    st.2 = pc + d.length • st.1.mulVec d.direction := by
  rw [nodeState, if_neg hname] at h
  split at h
  · injection h with h2
    subst h2
    rfl
  · exact absurd h (by simp)

/-- Strong-induction core of claim C1. -/
theorem posInv_aux (R : RealOps) (mo : Frame) :
    ∀ n : Nat, ∀ t : JTree, sizeOf t < n → ∀ (pm : M3) (pc : V3) (t' : JTree),
      setMotion R mo pm pc t = some t' → PosInv t' := by
  intro n
  induction n with
  | zero => intro t ht; omega
  | succ n ih =>
      intro t ht pm pc t' h
      obtain ⟨d, co, mx, ch⟩ := t
      obtain ⟨st, ch2, hns, hl, rfl⟩ :=
        setMotion_eq_some R mo pm pc d co mx ch t' h
      constructor
      · intro t2 ht2 hname
        obtain ⟨t1, ht1, hsm⟩ := setMotionList_mem R mo st.1 st.2 ch ch2 hl t2 ht2
        obtain ⟨d1, co1, mx1, ch1⟩ := t1
        obtain ⟨st1, ch12, hns1, hl1, rfl⟩ :=
          setMotion_eq_some R mo st.1 st.2 d1 co1 mx1 ch1 t2 hsm
        refine ⟨st.2, st1.1, rfl, rfl, ?_⟩
        have hco := nodeState_nonroot_co R mo st.1 st.2 d1 st1 hname hns1
        show some st1.2 = _
        rw [hco]
        rfl
      · intro t2 ht2
        obtain ⟨t1, ht1, hsm⟩ := setMotionList_mem R mo st.1 st.2 ch ch2 hl t2 ht2
        have hsz : sizeOf t1 < n := by
          have := sizeOf_mem_children d co mx ch t1 ht1
          omega
        exact ih t1 hsz st.1 st.2 t2 hsm

/-- C1: for every motion frame applied via set_motion and every non-root
joint reachable from the root, the joint's world position equals
parent world position + length * (own world rotation applied to the bone
direction); this holds for whatever frame is applied, hence for every frame
of a sequence. -/
theorem c1_child_world_position (R : RealOps) (mo : Frame) (pm : M3)
    (pc : V3) (t t' : JTree) (h : setMotion R mo pm pc t = some t') :
    PosInv t' :=
  posInv_aux R mo (sizeOf t + 1) t (Nat.lt_succ_self _) pm pc t' h

/-- Witness for C1: the invariant holds on the concretely computed world
state of the example skeleton. -/
theorem c1_child_world_position_witness :
    PosInv ((applyFrame R0 moEx tEx).getD tEx) :=
  c1_child_world_position R0 moEx 1 0 tEx
    ((applyFrame R0 moEx tEx).getD tEx) (by rfl)

/-- Children passes agree when set_motion agrees pointwise on the zipped
children lists. -/
theorem setMotionList_congr (R : RealOps) (mo : Frame) (pm : M3) (pc : V3) :
    ∀ (ts1 ts2 : List JTree), ts1.length = ts2.length →
      (∀ p ∈ ts1.zip ts2,
        setMotion R mo pm pc p.1 = setMotion R mo pm pc p.2) →
      setMotionList R mo pm pc ts1 = setMotionList R mo pm pc ts2 := by
  intro ts1
  induction ts1 with
  | nil =>
      intro ts2 hlen _
      cases ts2 with
      | nil => rfl
      | cons t2 ts2 => simp at hlen
  | cons t ts ih =>
      intro ts2 hlen hall
      cases ts2 with
      | nil => simp at hlen
      | cons t2 ts2 =>
          rw [setMotionList, setMotionList]
          have h1 : setMotion R mo pm pc t = setMotion R mo pm pc t2 :=
            hall (t, t2) (by simp)
          have h2 : setMotionList R mo pm pc ts = setMotionList R mo pm pc ts2 :=
            ih ts2 (by simpa using hlen) (fun p hp => hall p (by simp [hp]))
          rw [h1, h2]

/-- Strong-induction core of the first half of claim C6: statically equal
trees give equal set_motion results. -/
theorem staticEq_setMotion_aux (R : RealOps) (mo : Frame) :
    ∀ n : Nat, ∀ t1 : JTree, sizeOf t1 < n → ∀ t2 : JTree, StaticEq t1 t2 →
      ∀ (pm : M3) (pc : V3),
        setMotion R mo pm pc t1 = setMotion R mo pm pc t2 := by
  intro n
  induction n with
  | zero => intro t1 h; omega
  | succ n ih =>
      intro t1 hsz t2 hse pm pc
      cases hse with
      | node d co1 mx1 co2 mx2 ch1 ch2 hlen hch =>
          have hlist : ∀ (pm2 : M3) (pc2 : V3),
              setMotionList R mo pm2 pc2 ch1 = setMotionList R mo pm2 pc2 ch2 := by
            intro pm2 pc2
            refine setMotionList_congr R mo pm2 pc2 ch1 ch2 hlen ?_
            intro p hp
            have hmem := (List.of_mem_zip hp).1
            have hsz2 : sizeOf p.1 < n := by
              have := sizeOf_mem_children d co1 mx1 ch1 p.1 hmem
              omega
            exact ih p.1 hsz2 p.2 (hch p hp) pm2 pc2
          rw [setMotion, setMotion]
          cases hns : nodeState R mo pm pc d with
          | none => rfl
          | some st =>
              simp only [Option.bind_eq_bind, Option.some_bind]
              rw [hlist st.1 st.2]

/-- Strong-induction core of the second half of claim C6: a successful
set_motion changes only the transient fields, never the static part. -/
theorem setMotion_staticEq_aux (R : RealOps) (mo : Frame) :
    ∀ n : Nat, ∀ t : JTree, sizeOf t < n → ∀ (pm : M3) (pc : V3) (t' : JTree),
      setMotion R mo pm pc t = some t' → StaticEq t t' := by
  intro n
  induction n with
  | zero => intro t h; omega
  | succ n ih =>
      intro t hsz pm pc t' h
      obtain ⟨d, co, mx, ch⟩ := t
      obtain ⟨st, ch2, hns, hl, rfl⟩ :=
        setMotion_eq_some R mo pm pc d co mx ch t' h
      obtain ⟨hlen, hzip⟩ := setMotionList_zip R mo st.1 st.2 ch ch2 hl
      refine StaticEq.node d co mx (some st.2) (some st.1) ch ch2 hlen ?_
      intro p hp
      have hmem := (List.of_mem_zip hp).1
      have hsz2 : sizeOf p.1 < n := by
        have := sizeOf_mem_children d co mx ch p.1 hmem
        omega
      exact ih p.1 hsz2 st.1 st.2 p.2 (hzip p hp)

/-- C6: frame application is deterministic and pure in its inputs: two
skeletons with identical static descriptors and tree shape (whatever their
transient world-state fields, i.e. regardless of which frames were applied
to each before) yield identical results on the same frame, and a successful
application changes only the transient fields. -/
theorem c6_fk_deterministic (R : RealOps) (mo : Frame) (pm : M3) (pc : V3)
    (t1 t2 : JTree) (h : StaticEq t1 t2) :
    setMotion R mo pm pc t1 = setMotion R mo pm pc t2 ∧
      ∀ t' : JTree, setMotion R mo pm pc t1 = some t' → StaticEq t1 t' := by
  constructor
  · exact staticEq_setMotion_aux R mo (sizeOf t1 + 1) t1
      (Nat.lt_succ_self _) t2 h pm pc
  · intro t' h2
    exact setMotion_staticEq_aux R mo (sizeOf t1 + 1) t1
      (Nat.lt_succ_self _) pm pc t' h2

/-- Witness for C6: the example tree against a copy carrying stale world
state from an earlier frame. -/
theorem c6_fk_deterministic_witness :
    setMotion R0 moEx 1 0 tEx = setMotion R0 moEx 1 0 tExDirty :=
  (c6_fk_deterministic R0 moEx 1 0 tEx tExDirty
    (StaticEq.node dRoot none none (some ![5, 5, 5]) (some 1)
      [j1Node] [.node dJ1 (some ![1, 2, 3]) (some 1) []] rfl
      (by
        intro p hp
        rw [List.zip_cons_cons] at hp
        rcases List.mem_cons.mp hp with h1 | h1
        · subst h1
          exact StaticEq.node dJ1 none none (some ![1, 2, 3]) (some 1) [] []
            rfl (by intro q hq; simp at hq)
        · simp at h1))).1

/-- An active axis whose joint name is absent from the frame makes the
channel loop fail. -/
theorem localRotation_none (mo : Frame) (nm : String) (L : Fin 3 → K × K)
    (i : Fin 3) (hne : L i ≠ ((0 : K), (0 : K)))
    (hlk : frameLookup mo nm = none) :
    localRotation mo nm L = none := by
  unfold localRotation
  simp only [Prod.mk_zero_zero] at hne
  by_cases h0 : L 0 = (0 : K × K) <;>
    by_cases h1 : L 1 = (0 : K × K) <;>
    by_cases h2 : L 2 = (0 : K × K)
  · fin_cases i <;> simp_all
  all_goals simp [loopAxes, h0, h1, h2, hlk]

/-- A reachable joint lives in some child subtree. -/
theorem mem_jointsOfList : ∀ (ts : List JTree) (j : JTree),
    j ∈ jointsOfList ts → ∃ t ∈ ts, j ∈ jointsOf t := by
  intro ts
  induction ts with
  | nil => intro j hj; rw [jointsOfList] at hj; simp at hj
  | cons t ts ih =>
      intro j hj
      rw [jointsOfList] at hj
      rcases List.mem_append.mp hj with h | h
      · exact ⟨t, by simp, h⟩
      · obtain ⟨t1, ht1, hj1⟩ := ih j h
        exact ⟨t1, by simp [ht1], hj1⟩

/-- A failing member makes the whole children pass fail. -/
theorem setMotionList_none_of_mem (R : RealOps) (mo : Frame) :
    ∀ (ts : List JTree) (pm : M3) (pc : V3) (t1 : JTree), t1 ∈ ts →
      (∀ (pm2 : M3) (pc2 : V3), setMotion R mo pm2 pc2 t1 = none) →
      setMotionList R mo pm pc ts = none := by
  intro ts
  induction ts with
  | nil => intro pm pc t1 h; simp at h
  | cons t ts ih =>
      intro pm pc t1 ht1 hnone
      rw [setMotionList]
      rcases List.mem_cons.mp ht1 with h | h
      · subst h
        rw [hnone pm pc]
        rfl
      · cases hsm : setMotion R mo pm pc t with
        | none => rfl
        | some t2 =>
            simp only [Option.bind_eq_bind, Option.some_bind]
            rw [ih pm pc t1 h hnone]
            rfl

/-- Strong-induction core of claim C7. -/
theorem missing_channel_aux (R : RealOps) (mo : Frame) :
    ∀ n : Nat, ∀ t : JTree, sizeOf t < n →
      ∀ j ∈ jointsOf t, j.dta.name ≠ "root" →
        (∃ i, j.dta.limits i ≠ ((0 : K), (0 : K))) →
        frameLookup mo j.dta.name = none →
        ∀ (pm : M3) (pc : V3), setMotion R mo pm pc t = none := by
  intro n
  induction n with
  | zero => intro t h; omega
  | succ n ih =>
      intro t hsz j hj hname hlim hlk pm pc
      obtain ⟨d, co, mx, ch⟩ := t
      rw [jointsOf] at hj
      rcases List.mem_cons.mp hj with h1 | h1
      · subst h1
        simp only [JTree.dta] at hname hlk hlim
        obtain ⟨i, hi⟩ := hlim
        have hns : nodeState R mo pm pc d = none := by
          rw [nodeState, if_neg hname]
          rw [localRotation_none mo d.name d.limits i hi hlk]
        rw [setMotion, hns]
        rfl
      · obtain ⟨t1, ht1, hjt1⟩ := mem_jointsOfList ch j h1
        rw [setMotion]
        cases hns : nodeState R mo pm pc d with
        | none => rfl
        | some st =>
            simp only [Option.bind_eq_bind, Option.some_bind]
            have hsz2 : sizeOf t1 < n := by
              have := sizeOf_mem_children d co mx ch t1 ht1
              omega
            have hnone : ∀ (pm2 : M3) (pc2 : V3),
                setMotion R mo pm2 pc2 t1 = none :=
              fun pm2 pc2 => ih t1 hsz2 j hjt1 hname hlim hlk pm2 pc2
            rw [setMotionList_none_of_mem R mo ch st.1 st.2 t1 ht1 hnone]
            rfl

/-- C7: if a joint reachable from the root, other than the root, has at
least one declared DOF (nonzero limits) and the frame carries no entry
under its name, applying the frame fails: the engine never substitutes a
default value for the missing channel. -/
theorem c7_missing_channel_error (R : RealOps) (mo : Frame) (t j : JTree)
    (pm : M3) (pc : V3)
    (hj : j ∈ jointsOf t) (hname : j.dta.name ≠ "root")
    (hlim : ∃ i, j.dta.limits i ≠ ((0 : K), (0 : K)))
    (hlk : frameLookup mo j.dta.name = none) :
    setMotion R mo pm pc t = none :=
  missing_channel_aux R mo (sizeOf t + 1) t (Nat.lt_succ_self _) j hj
    hname hlim hlk pm pc

/-- Witness for C7: the example skeleton against a frame that lacks the
entry for the DOF joint j1. -/
theorem c7_missing_channel_error_witness :
    setMotion R0 moBad 1 0 tEx = none :=
  c7_missing_channel_error R0 moBad tEx j1Node 1 0
    (by simp [jointsOf, jointsOfList, tEx, j1Node]) (by decide)
    ⟨2, by decide⟩ rfl

/-- The channel loop reads the frame only through the joint's own name. -/
theorem loopAxes_congr (mo1 mo2 : Frame) (nm : String)
    (h : frameLookup mo1 nm = frameLookup mo2 nm) :
    ∀ (L : List (K × K)) (i : Nat),
      loopAxes mo1 nm L i = loopAxes mo2 nm L i := by
  intro L
  induction L with
  | nil => intro i; rfl
  | cons lm rest ih =>
      intro i
      by_cases hlm : lm = (0 : K × K)
      · simp [loopAxes, hlm, ih]
      · simp [loopAxes, hlm, h, ih]

/-- The per-node state reads the frame only through the node's name. -/
theorem nodeState_congr (R : RealOps) (mo1 mo2 : Frame) (pm : M3) (pc : V3)
    (d : JointData)
    (h : frameLookup mo1 d.name = frameLookup mo2 d.name) :
    nodeState R mo1 pm pc d = nodeState R mo2 pm pc d := by
  by_cases hn : d.name = "root"
  · rw [hn] at h
    rw [nodeState, nodeState, if_pos hn, if_pos hn, h]
  · rw [nodeState, nodeState, if_neg hn, if_neg hn, localRotation,
      localRotation, loopAxes_congr mo1 mo2 d.name h]

/-- Names reachable in a subtree of a child are reachable in the tree. -/
theorem mem_jointsOfList_of (j : JTree) :
    ∀ (ts : List JTree) (t1 : JTree), t1 ∈ ts → j ∈ jointsOf t1 →
      j ∈ jointsOfList ts := by
  intro ts
  induction ts with
  | nil => intro t1 h; simp at h
  | cons t ts ih =>
      intro t1 ht1 hj
      rw [jointsOfList]
      rcases List.mem_cons.mp ht1 with h | h
      · subst h; exact List.mem_append.mpr (Or.inl hj)
      · exact List.mem_append.mpr (Or.inr (ih t1 h hj))

/-- A child's joint names are among its parent tree's joint names. -/
theorem jointNames_children (d : JointData) (co : Option V3) (mx : Option M3)
    (ch : List JTree) (t1 : JTree) (h : t1 ∈ ch) :
    ∀ nm ∈ jointNames t1, nm ∈ jointNames (JTree.node d co mx ch) := by
  intro nm hnm
  simp only [jointNames, List.mem_map] at hnm ⊢
  obtain ⟨j, hj, rfl⟩ := hnm
  refine ⟨j, ?_, rfl⟩
  rw [jointsOf]
  exact List.mem_cons.mpr (Or.inr (mem_jointsOfList_of j ch t1 h hj))

/-- Children passes agree when every member applies equally under both
frames, at every parent state. -/
theorem setMotionList_congr_mo (R : RealOps) (mo1 mo2 : Frame) :
    ∀ (ts : List JTree) (pm : M3) (pc : V3),
      (∀ t1 ∈ ts, ∀ (pm2 : M3) (pc2 : V3),
        setMotion R mo1 pm2 pc2 t1 = setMotion R mo2 pm2 pc2 t1) →
      setMotionList R mo1 pm pc ts = setMotionList R mo2 pm pc ts := by
  intro ts
  induction ts with
  | nil => intro pm pc _; rfl
  | cons t ts ih =>
      intro pm pc hall
      rw [setMotionList, setMotionList, hall t (by simp) pm pc]
      have h2 : setMotionList R mo1 pm pc ts = setMotionList R mo2 pm pc ts :=
        ih pm pc (fun t1 h1 => hall t1 (by simp [h1]))
      rw [h2]

/-- Strong-induction core of the FK half of claim C9: set_motion reads the
frame only at the names of the tree's joints. -/
theorem agree_aux (R : RealOps) :
    ∀ n : Nat, ∀ t : JTree, sizeOf t < n → ∀ mo1 mo2 : Frame,
      (∀ nm ∈ jointNames t, frameLookup mo1 nm = frameLookup mo2 nm) →
      ∀ (pm : M3) (pc : V3),
        setMotion R mo1 pm pc t = setMotion R mo2 pm pc t := by
  intro n
  induction n with
  | zero => intro t h; omega
  | succ n ih =>
      intro t hsz mo1 mo2 hag pm pc
      obtain ⟨d, co, mx, ch⟩ := t
      have hd : frameLookup mo1 d.name = frameLookup mo2 d.name := by
        refine hag d.name ?_
        simp only [jointNames, List.mem_map]
        exact ⟨.node d co mx ch, by rw [jointsOf]; simp, rfl⟩
      have hlist : ∀ (pm2 : M3) (pc2 : V3),
          setMotionList R mo1 pm2 pc2 ch = setMotionList R mo2 pm2 pc2 ch := by
        intro pm2 pc2
        refine setMotionList_congr_mo R mo1 mo2 ch pm2 pc2 ?_
        intro t1 ht1 pm3 pc3
        have hsz2 : sizeOf t1 < n := by
          have := sizeOf_mem_children d co mx ch t1 ht1
          omega
        exact ih t1 hsz2 mo1 mo2
          (fun nm hnm => hag nm (jointNames_children d co mx ch t1 ht1 nm hnm))
          pm3 pc3
      rw [setMotion, setMotion, nodeState_congr R mo1 mo2 pm pc d hd]
      cases hns : nodeState R mo2 pm pc d with
      | none => rfl
      | some st =>
          simp only [Option.bind_eq_bind, Option.some_bind]
          rw [hlist st.1 st.2]

/-- All value tokens converting means the conversion list succeeds. -/
theorem floatsOf_isSome : ∀ ts : List PTok,
    (∀ v ∈ ts, (PTok.val v).isSome = true) → ∃ vs, floatsOf ts = some vs := by
  intro ts
  induction ts with
  | nil => intro _; exact ⟨[], rfl⟩
  | cons t ts ih =>
      intro hall
      obtain ⟨v, hv⟩ := Option.isSome_iff_exists.mp (hall t (by simp))
      obtain ⟨vs, hvs⟩ := ih (fun u hu => hall u (by simp [hu]))
      refine ⟨v :: vs, ?_⟩
      rw [floatsOf] at hvs ⊢
      rw [List.mapM_cons, hv, hvs]
      rfl

/-- The parse loop succeeds on any run of consumable lines, whatever the
current frame and accumulator. -/
theorem parseLines_isSome : ∀ (content : List Line) (cur : Frame)
    (acc : List Frame), (∀ l ∈ content, wfLine l = true) →
    (parseLines content cur acc).isSome = true := by
  intro content
  induction content with
  | nil => intro cur acc _; rw [parseLines]; rfl
  | cons l rest ih =>
      intro cur acc hwf
      cases l with
      | nil =>
          rw [parseLines]
          exact ih cur acc (fun l2 h2 => hwf l2 (by simp [h2]))
      | cons t ts =>
          rw [parseLines]
          have hwl : wfLine (t :: ts) = true := hwf (t :: ts) (by simp)
          have hrest : ∀ l2 ∈ rest, wfLine l2 = true :=
            fun l2 h2 => hwf l2 (by simp [h2])
          cases htb : t.isnum with
          | true =>
              simp only [htb, if_true]
              by_cases hcur : cur = []
              · rw [if_pos hcur]; exact ih cur acc hrest
              · rw [if_neg hcur]; exact ih [] (acc ++ [cur]) hrest
          | false =>
              rw [wfLine, htb] at hwl
              simp only [Bool.false_or, List.all_eq_true] at hwl
              obtain ⟨vs, hvs⟩ := floatsOf_isSome ts hwl
              simp only [htb, hvs]
              exact ih (dictInsert cur t.text vs) acc hrest

/-- Counterexample to C9 as stated: a motion text whose frame holds a
channel line for the unknown name ghost parses successfully, and applying
the resulting frame to the paired skeleton also succeeds at FK time — it
does not fail. -/
theorem c9_unknown_name_counterexample :
    parse_amc exGhost = some [moGhost] ∧
      (applyFrame R0 moGhost tRootOnly).isSome = true := by
  constructor
  · rfl
  · rfl

/-- C9 (amended): joint names unknown to the skeleton are tolerated at
parse time — the parser succeeds on any run of consumable lines, whatever
names they carry — and at FK-application time such entries are simply
ignored: set_motion reads the frame only at the names of the skeleton's
joints, so two frames agreeing there (e.g. with and without unknown-name
entries) give identical results. -/
theorem c9_unknown_name_amended (content : List Line) (R : RealOps)
    (t : JTree) (mo1 mo2 : Frame) :
    ((∀ l ∈ content, wfLine l = true) → (parse_amc content).isSome = true) ∧
      ((∀ nm ∈ jointNames t, frameLookup mo1 nm = frameLookup mo2 nm) →
        ∀ (pm : M3) (pc : V3),
          setMotion R mo1 pm pc t = setMotion R mo2 pm pc t) :=
  ⟨fun h => parseLines_isSome content [] [] h,
   fun h pm pc =>
     agree_aux R (sizeOf t + 1) t (Nat.lt_succ_self _) mo1 mo2 h pm pc⟩

/-- Witness for the amended C9: the ghost input parses, and the example
frame with an extra ghost entry applies identically to the frame without. -/
theorem c9_unknown_name_amended_witness :
    (parse_amc exGhost).isSome = true ∧
      setMotion R0 moEx 1 0 tEx = setMotion R0 moExGhost 1 0 tEx :=
  ⟨(c9_unknown_name_amended exGhost R0 tEx moEx moExGhost).1 (by decide),
   (c9_unknown_name_amended exGhost R0 tEx moEx moExGhost).2 (by decide) 1 0⟩

/-- Counterexample to C8 as stated: on a motion text with a zero-channel
frame (delimiter 1 immediately followed by delimiter 2) the parser does not
reject the input — it succeeds, returning only the non-empty frame. -/
theorem c8_empty_frame_counterexample :
    parse_amc ex8 = some [[("root", ([0, 0, 0, 0, 0, 0] : List K))]] := by
  rfl

/-- C8 (amended): a frame delimiter arriving while no channel lines have
been recorded leaves the parse unchanged: the zero-channel frame is
silently skipped — never appended and never reported as an error. -/
theorem c8_empty_frame_skipped (t : PTok) (ts : List PTok)
    (rest : List Line) (h : t.isnum = true) :
    parse_amc ((t :: ts) :: rest) = parse_amc rest := by
  rw [parse_amc, parse_amc, parseLines]
  simp [h]

/-- Witness for the amended C8: prepending a delimiter line to the example
input does not change the parse. -/
theorem c8_empty_frame_skipped_witness :
    parse_amc (({ isnum := true, text := "", val := some 5 } :: []) :: exGhost)
      = parse_amc exGhost :=
  c8_empty_frame_skipped { isnum := true, text := "", val := some 5 } []
    exGhost rfl

/-- The parse loop never moves an empty frame into the output list. -/
theorem parseLines_nonempty : ∀ (content : List Line) (cur : Frame)
    (acc : List Frame), (∀ f ∈ acc, f ≠ []) →
    ∀ fs : List Frame, parseLines content cur acc = some fs →
    ∀ f ∈ fs, f ≠ [] := by
  intro content
  induction content with
  | nil =>
      intro cur acc hacc fs h f hf
      rw [parseLines] at h
      by_cases hcur : cur = []
      · rw [if_pos hcur] at h
        obtain rfl : acc = fs := Option.some_inj.mp h
        exact hacc f hf
      · rw [if_neg hcur] at h
        obtain rfl : acc ++ [cur] = fs := Option.some_inj.mp h
        rcases List.mem_append.mp hf with h1 | h1
        · exact hacc f h1
        · rw [List.mem_singleton.mp h1]
          exact hcur
  | cons l rest ih =>
      intro cur acc hacc fs h f hf
      cases l with
      | nil =>
          rw [parseLines] at h
          exact ih cur acc hacc fs h f hf
      | cons t ts =>
          rw [parseLines] at h
          cases htb : t.isnum with
          | true =>
              rw [htb] at h
              simp only [if_true] at h
              by_cases hcur : cur = []
              · rw [if_pos hcur] at h
                exact ih cur acc hacc fs h f hf
              · rw [if_neg hcur] at h
                refine ih [] (acc ++ [cur]) ?_ fs h f hf
                intro f2 hf2
                rcases List.mem_append.mp hf2 with h1 | h1
                · exact hacc f2 h1
                · rw [List.mem_singleton.mp h1]
                  exact hcur
          | false =>
              rw [htb] at h
              simp only [Bool.false_eq_true, if_false] at h
              cases hfl : floatsOf ts with
              | none => rw [hfl] at h; simp at h
              | some vs =>
                  rw [hfl] at h
                  exact ih (dictInsert cur t.text vs) acc hacc fs h f hf

/-- C10: every frame parse_amc returns is a non-empty mapping: a delimiter
line arriving while the current frame has no recorded channels causes that
frame to be skipped, never appended, and parsing continues without error. -/
theorem c10_frames_nonempty (content : List Line) (fs : List Frame)
    (h : parse_amc content = some fs) : ∀ f ∈ fs, f ≠ [] :=
  parseLines_nonempty content [] [] (by simp) fs h

/-- Witness for C10 on the ghost example input. -/
theorem c10_frames_nonempty_witness : moGhost ≠ ([] : Frame) :=
  c10_frames_nonempty exGhost [moGhost] rfl moGhost (by simp)

/-- Counterexample to C2 as stated: a joint declaring dof = [rz, rx] (out
of x, y, z order) consumes its first channel value 10 into the x slot and
its second value 20 into the z slot, while tag-directed placement in
declaration order demands 10 in z and 20 in x. -/
theorem c2_dof_tag_counterexample :
    localRotation exMoChan "j" (limitsOfDof exLims exDof)
        = some [10, 0, 20] ∧
      [claimedRotation exDof [10, 20] 0, claimedRotation exDof [10, 20] 1,
        claimedRotation exDof [10, 20] 2] = [20, 0, 10] := by
  constructor
  · rfl
  · rfl

theorem list_len1 {α : Type} (l : List α) (h : l.length = 1) :
    ∃ a, l = [a] := by
  cases l with
  | nil => simp at h
  | cons a tl =>
      cases tl with
      | nil => exact ⟨a, rfl⟩
      | cons b tl2 => simp at h

theorem list_len2 {α : Type} (l : List α) (h : l.length = 2) :
    ∃ a b, l = [a, b] := by
  cases l with
  | nil => simp at h
  | cons a tl =>
      obtain ⟨b, hb⟩ := list_len1 tl (by simpa using h)
      exact ⟨a, b, by rw [hb]⟩

theorem list_len3 {α : Type} (l : List α) (h : l.length = 3) :
    ∃ a b c, l = [a, b, c] := by
  cases l with
  | nil => simp at h
  | cons a tl =>
      obtain ⟨b, c, hbc⟩ := list_len2 tl (by simpa using h)
      exact ⟨a, b, c, by rw [hbc]⟩

/-- The eight ordered subsequences of [rx, ry, rz]. -/
theorem sublist_rxyz (dof : List String)
    (h : dof.Sublist ["rx", "ry", "rz"]) :
    dof = [] ∨ dof = ["rx"] ∨ dof = ["ry"] ∨ dof = ["rz"] ∨
      dof = ["rx", "ry"] ∨ dof = ["rx", "rz"] ∨ dof = ["ry", "rz"] ∨
      dof = ["rx", "ry", "rz"] := by
  cases h with
  | cons a h1 =>
      cases h1 with
      | cons a h2 =>
          cases h2 with
          | cons a h3 => cases h3; simp
          | cons₂ a h3 => cases h3; simp
      | cons₂ a h2 =>
          cases h2 with
          | cons a h3 => cases h3; simp
          | cons₂ a h3 => cases h3; simp
  | cons₂ a h1 =>
      cases h1 with
      | cons a h2 =>
          cases h2 with
          | cons a h3 => cases h3; simp
          | cons₂ a h3 => cases h3; simp
      | cons₂ a h2 =>
          cases h2 with
          | cons a h3 => cases h3; simp
          | cons₂ a h3 => cases h3; simp

/-- C2 (amended): when the joint's DOF tags are declared in x, y, z order
(an ordered subsequence of [rx, ry, rz], as in the CMU data) and every
declared axis has nonzero limits, the channel values are consumed in
DOF-declaration order and each lands in the slot of its declared tag, and
no channel beyond the declared count is requested: the computed local
rotation equals the spec's tag-directed placement. -/
theorem c2_dof_order_amended (mo : Frame) (nm : String) (dof : List String)
    (lims : List (K × K)) (vals : List K)
    (hsub : dof.Sublist ["rx", "ry", "rz"])
    (hlen : lims.length = dof.length)
    (hvlen : vals.length = dof.length)
    (hnz : ∀ lm ∈ lims, lm ≠ (0 : K × K))
    (hlk : frameLookup mo nm = some vals) :
    localRotation mo nm (limitsOfDof lims dof) =
      some [claimedRotation dof vals 0, claimedRotation dof vals 1,
        claimedRotation dof vals 2] := by
  rcases sublist_rxyz dof hsub with rfl | rfl | rfl | rfl | rfl | rfl | rfl | rfl
  · obtain rfl : lims = [] := List.length_eq_zero.mp hlen
    obtain rfl : vals = [] := List.length_eq_zero.mp hvlen
    rfl
  · obtain ⟨l1, rfl⟩ := list_len1 lims hlen
    obtain ⟨v1, rfl⟩ := list_len1 vals hvlen
    have h1 : l1 ≠ (0 : K × K) := hnz l1 (by simp)
    simp [localRotation, limitsOfDof, mkLimits, loopAxes, axisSlot, setSlot,
      h1, hlk, claimedRotation, specTagFill]
  · obtain ⟨l1, rfl⟩ := list_len1 lims hlen
    obtain ⟨v1, rfl⟩ := list_len1 vals hvlen
    have h1 : l1 ≠ (0 : K × K) := hnz l1 (by simp)
    simp [localRotation, limitsOfDof, mkLimits, loopAxes, axisSlot, setSlot,
      h1, hlk, claimedRotation, specTagFill]
  · obtain ⟨l1, rfl⟩ := list_len1 lims hlen
    obtain ⟨v1, rfl⟩ := list_len1 vals hvlen
    have h1 : l1 ≠ (0 : K × K) := hnz l1 (by simp)
    simp [localRotation, limitsOfDof, mkLimits, loopAxes, axisSlot, setSlot,
      h1, hlk, claimedRotation, specTagFill]
  · obtain ⟨l1, l2, rfl⟩ := list_len2 lims hlen
    obtain ⟨v1, v2, rfl⟩ := list_len2 vals hvlen
    have h1 : l1 ≠ (0 : K × K) := hnz l1 (by simp)
    have h2 : l2 ≠ (0 : K × K) := hnz l2 (by simp)
    simp [localRotation, limitsOfDof, mkLimits, loopAxes, axisSlot, setSlot,
      h1, h2, hlk, claimedRotation, specTagFill]
  · obtain ⟨l1, l2, rfl⟩ := list_len2 lims hlen
    obtain ⟨v1, v2, rfl⟩ := list_len2 vals hvlen
    have h1 : l1 ≠ (0 : K × K) := hnz l1 (by simp)
    have h2 : l2 ≠ (0 : K × K) := hnz l2 (by simp)
    simp [localRotation, limitsOfDof, mkLimits, loopAxes, axisSlot, setSlot,
      h1, h2, hlk, claimedRotation, specTagFill]
  · obtain ⟨l1, l2, rfl⟩ := list_len2 lims hlen
    obtain ⟨v1, v2, rfl⟩ := list_len2 vals hvlen
    have h1 : l1 ≠ (0 : K × K) := hnz l1 (by simp)
    have h2 : l2 ≠ (0 : K × K) := hnz l2 (by simp)
    simp [localRotation, limitsOfDof, mkLimits, loopAxes, axisSlot, setSlot,
      h1, h2, hlk, claimedRotation, specTagFill]
  · obtain ⟨l1, l2, l3, rfl⟩ := list_len3 lims hlen
    obtain ⟨v1, v2, v3, rfl⟩ := list_len3 vals hvlen
    have h1 : l1 ≠ (0 : K × K) := hnz l1 (by simp)
    have h2 : l2 ≠ (0 : K × K) := hnz l2 (by simp)
    have h3 : l3 ≠ (0 : K × K) := hnz l3 (by simp)
    simp [localRotation, limitsOfDof, mkLimits, loopAxes, axisSlot, setSlot,
      h1, h2, h3, hlk, claimedRotation, specTagFill]

/-- Witness for the amended C2 at the example joint j1 (dof = [rz]). -/
theorem c2_dof_order_amended_witness :
    localRotation moEx "j1" (limitsOfDof [((-180 : K), (180 : K))] ["rz"]) =
      some [claimedRotation ["rz"] [90] 0, claimedRotation ["rz"] [90] 1,
        claimedRotation ["rz"] [90] 2] :=
  c2_dof_order_amended moEx "j1" ["rz"] [(-180, 180)] [90]
    (List.Sublist.cons "rx" (List.Sublist.cons "ry"
      (List.Sublist.cons₂ "rz" List.Sublist.slnil)))
    rfl rfl (by decide) rfl

set_option maxRecDepth 4000 in
/-- C5, evaluated at the failing input: with 700 motion frames,
start_frame = 500 and end_frame = 700, create_3d_animation applies the FK
engine to frame indices 0..199 instead of the 500..699 that the dashboard
driver (correctly) applies, so the two drivers do not apply the claimed
range. -/
theorem c5_driver_range_bug :
    create3dAnimationSeq 700 500 (some 700) = List.range 200 ∧
      dashboardAnimationSeq 700 500 (some 700) = pyRange 500 700 ∧
      create3dAnimationSeq 700 500 (some 700) ≠ pyRange 500 700 := by
  refine ⟨rfl, ?_, by decide⟩
  rfl

end Mocap
